import Mathlib

/-!
# ContriBook — contribution ledger and reputation core, verified

A shallow embedding of the ContriBook core: the per-team hash-chained
contribution ledger (`TeamLedger`, `appendCAS`), the verification
coordinator state machine (`CoordState`, `submit`/`verify`/`flag`/freeze),
the reputation engine (`recompute`), the chain auditor (`verifyChain`),
and the frontend contribution heatmap (`heatmapData`/`weeks`, embedded
from `frontend/src/components/ContributionHeatmap.tsx`).

The backend implementation (`backend/app/blockchain.py`,
`backend/app/services.py` in the repository's README layout) is not part
of the source tree available here; the ledger, coordinator, engine and
auditor definitions below are therefore modelled from the specification,
as their doc comments state.  The heatmap definitions are translated
directly from the TypeScript source.
-/

namespace ContriBook

/-! ## Data model -/

/-- Modelled from the spec: roles supplied by the auth/role service
(member/instructor/manager). -/
inductive Role where
  | member
  | instructor
  | manager
deriving DecidableEq, Repr

/-- Modelled from the spec: `eventPayload` is a tagged variant
`{Created, Verified(verifierRef), InstructorVerified(verifierRef),
Flagged(flaggerRef)}`. -/
inductive EventPayload where
  | Created
  | Verified (verifierRef : Nat)
  | InstructorVerified (verifierRef : Nat)
  | Flagged (flaggerRef : Nat)
deriving DecidableEq, Repr

/-- Modelled from the spec: a ledger block (§3).  Identifiers, timestamps
and hashes are modelled as `Nat`; the score snapshot is an `Int` since
flags can drive scores negative. -/
structure Block where
  sequence : Nat
  timestamp : Nat
  contributionRef : Nat
  contributorRef : Nat
  contentHash : Nat
  eventPayload : EventPayload
  verificationCount : Nat
  reputationScoreSnapshot : Int
  previousHash : Nat
  blockHash : Nat
deriving DecidableEq, Repr

/-- Injective encoding of an event payload into `Nat`, used by the
modelled hash function. -/
def encodePayload : EventPayload → Nat
  | .Created => Nat.pair 0 0
  | .Verified v => Nat.pair 1 v
  | .InstructorVerified v => Nat.pair 2 v
  | .Flagged f => Nat.pair 3 f

/-- Encoding of an `Int` into `Nat` for hashing. -/
def encodeInt (n : Int) : Nat :=
  2 * n.natAbs + (if n < 0 then 1 else 0)

/-- Modelled from the spec: HashChain (§4.1) produces a deterministic
content hash over a canonical serialization of all block fields except
`blockHash` itself, in a fixed field order.  The cryptographic digest
(SHA-256 in the real backend) is modelled by an injective pairing, which
makes collision-freeness a modelling assumption. -/
def hashFields (sequence timestamp contributionRef contributorRef contentHash : Nat)
    (payload : EventPayload) (verificationCount : Nat)
    (snapshot : Int) (previousHash : Nat) : Nat :=
  Nat.pair sequence (Nat.pair timestamp (Nat.pair contributionRef
    (Nat.pair contributorRef (Nat.pair contentHash
      (Nat.pair (encodePayload payload) (Nat.pair verificationCount
        (Nat.pair (encodeInt snapshot) previousHash)))))))

/-- Recompute a block's hash from its stored fields (all fields except
`blockHash` itself, the stored `previousHash` included). -/
def blockHashOf (b : Block) : Nat :=
  hashFields b.sequence b.timestamp b.contributionRef b.contributorRef
    b.contentHash b.eventPayload b.verificationCount
    b.reputationScoreSnapshot b.previousHash

/-! ## LedgerStore -/

/-- Modelled from the spec: error taxonomy (§7), plus `NotFound` for the
out-of-scope CRUD path where a contribution id does not resolve. -/
inductive Err where
  | ChainConflict
  | ChainFrozen
  | TeamFrozen
  | SelfVerificationDenied
  | AlreadyActed
  | NotFound
deriving DecidableEq, Repr

/-- Modelled from the spec: the per-team ledger owned by LedgerStore —
an append-only list of blocks in ascending sequence order (genesis
first), plus the freeze flag set by the team-lifecycle `freeze` hook. -/
structure TeamLedger where
  blocks : List Block
  frozen : Bool
deriving DecidableEq, Repr

/-- Hash of the current tip, or the genesis sentinel `0` for an empty
chain. -/
def tipHash (led : TeamLedger) : Nat :=
  match led.blocks.getLast? with
  | none => 0
  | some b => b.blockHash

/-- Sequence number the next appended block receives: `0` for genesis,
tip sequence plus one otherwise. -/
def nextSeq (led : TeamLedger) : Nat :=
  match led.blocks.getLast? with
  | none => 0
  | some b => b.sequence + 1

/-- The block `appendCAS` persists: fields as supplied, sequence and
`previousHash` read from the current tip, `blockHash` computed via
`hashFields`. -/
def mkBlock (led : TeamLedger) (ts cref aref chash : Nat)
    (payload : EventPayload) (vc : Nat) (snap : Int) : Block :=
  { sequence := nextSeq led
    timestamp := ts
    contributionRef := cref
    contributorRef := aref
    contentHash := chash
    eventPayload := payload
    verificationCount := vc
    reputationScoreSnapshot := snap
    previousHash := tipHash led
    blockHash := hashFields (nextSeq led) ts cref aref chash payload vc snap (tipHash led) }

/-- Modelled from the spec: `LedgerStore.append` (§4.2) with the
check-and-set discipline made explicit.  Fails with `ChainFrozen` after
the team is frozen; rejects with `ChainConflict` any append whose
expected previous hash does not match the current tip; otherwise
persists the new block at the tail of the chain (creating the genesis
block, sequence `0` and sentinel `previousHash`, on the first call). -/
def appendCAS (led : TeamLedger) (expectedPrev : Nat) (ts cref aref chash : Nat)
    (payload : EventPayload) (vc : Nat) (snap : Int) : Except Err TeamLedger :=
  if led.frozen then .error .ChainFrozen
  else if expectedPrev = tipHash led then
    .ok { led with blocks := led.blocks ++ [mkBlock led ts cref aref chash payload vc snap] }
  else .error .ChainConflict

/-- Modelled from the spec: the single-writer append path used by the
coordinator — a check-and-set append whose expected previous hash is the
tip it just read. -/
def ledgerAppend (led : TeamLedger) (ts cref aref chash : Nat)
    (payload : EventPayload) (vc : Nat) (snap : Int) : Except Err TeamLedger :=
  appendCAS led (tipHash led) ts cref aref chash payload vc snap

/-- Modelled from the spec: the team-lifecycle `freeze(teamId)` hook —
a hard gate on further appends. -/
def freezeLedger (led : TeamLedger) : TeamLedger :=
  { led with frozen := true }

/-- The per-pair linkage relation of the chain invariant: the later
block stores the earlier block's hash and its sequence plus one. -/
def linkRel (a b : Block) : Prop :=
  b.previousHash = a.blockHash ∧ b.sequence = a.sequence + 1

instance : DecidableRel linkRel := fun a b => by
  unfold linkRel; infer_instance

/-! ## ReputationEngine -/

/-- Modelled from the spec: a contribution record — opaque id (UUID
modelled as `Nat`), author, owning team and content hash. -/
structure Contrib where
  id : Nat
  author : Nat
  teamId : Nat
  contentHash : Nat
deriving DecidableEq, Repr

/-- Modelled from the spec: the action recorded by a VerificationRecord —
a verification carrying the verifier's role, or a flag. -/
inductive VAction where
  | verifiedAs (role : Role)
  | flagged
deriving DecidableEq, Repr

/-- Modelled from the spec: VerificationRecord — one per
(contribution, verifier) pair. -/
structure VRecord where
  contributionId : Nat
  verifierId : Nat
  action : VAction
deriving DecidableEq, Repr

/-- Whether an action is any verification (member or elevated). -/
def VAction.isVerify : VAction → Bool
  | .verifiedAs _ => true
  | .flagged => false

/-- Whether an action is a plain teammate (member) verification. -/
def VAction.isPeerVerify : VAction → Bool
  | .verifiedAs .member => true
  | _ => false

/-- Whether an action is an instructor/manager verification. -/
def VAction.isInstrVerify : VAction → Bool
  | .verifiedAs .instructor => true
  | .verifiedAs .manager => true
  | _ => false

/-- Whether an action is a flag. -/
def VAction.isFlag : VAction → Bool
  | .verifiedAs _ => false
  | .flagged => true

/-- Distinct non-author teammates (member role) that verified the given
contribution. -/
def peerVerifiers (records : List VRecord) (c : Contrib) : List Nat :=
  ((records.filter (fun r =>
      r.contributionId = c.id && r.action.isPeerVerify && r.verifierId ≠ c.author)).map
    (fun r => r.verifierId)).dedup

/-- Whether the contribution has at least one instructor/manager
verification. -/
def hasInstrVerification (records : List VRecord) (c : Contrib) : Bool :=
  records.any (fun r => r.contributionId = c.id && r.action.isInstrVerify)

/-- Whether the contribution has at least one flag. -/
def hasFlagRecord (records : List VRecord) (c : Contrib) : Bool :=
  records.any (fun r => r.contributionId = c.id && r.action.isFlag)

/-- Number of verification (non-flag) records for a contribution id —
the `verificationCount` counter stored in blocks. -/
def verCount (records : List VRecord) (cid : Nat) : Nat :=
  (records.filter (fun r => r.contributionId = cid && r.action.isVerify)).length

/-- Modelled from the spec: the score one contribution contributes —
`+1` for being submitted, `+3` once it has ≥2 distinct non-author
teammate verifications, `+5` once it has ≥1 instructor/manager
verification, `-2` once it has ≥1 flag; each bucket at most once. -/
def scoreContribution (records : List VRecord) (c : Contrib) : Int :=
  1 + (if 2 ≤ (peerVerifiers records c).length then 3 else 0)
    + (if hasInstrVerification records c then 5 else 0)
    - (if hasFlagRecord records c then 2 else 0)

/-- Contributions authored by `userId` within `teamId`. -/
def contributionsOf (contribs : List Contrib) (userId teamId : Nat) : List Contrib :=
  contribs.filter (fun c => c.author = userId && c.teamId = teamId)

/-- Modelled from the spec: `ReputationEngine.recompute(userId, teamId)`
(§4.4) — scans the verification records and the user's contributions in
the team and folds up the per-contribution scores. -/
def recompute (contribs : List Contrib) (records : List VRecord)
    (userId teamId : Nat) : Int :=
  ((contributionsOf contribs userId teamId).map (scoreContribution records)).foldl (· + ·) 0

/-- Modelled from the spec: the reputation engine as a materialized
view — ledger-derived inputs plus a stored score per (user, team). -/
structure ScoreBoard where
  contribs : List Contrib
  records : List VRecord
  scores : Nat × Nat → Int

/-- Modelled from the spec: the eager recompute call — recomputes the
score of `(userId, teamId)` from the current contributions and records,
stores it, and returns it. -/
def recomputeCall (st : ScoreBoard) (userId teamId : Nat) : ScoreBoard × Int :=
  let v := recompute st.contribs st.records userId teamId
  ({ st with scores := Function.update st.scores (userId, teamId) v }, v)

/-! ## VerificationCoordinator -/

/-- Modelled from the spec: the state the coordinator acts on for one
team — the team's ledger, the contribution set and the verification
records (the sole writer path into LedgerStore). -/
structure CoordState where
  ledger : TeamLedger
  contribs : List Contrib
  records : List VRecord
deriving DecidableEq, Repr

/-- The empty coordinator state: no blocks, not frozen, no
contributions, no records. -/
def initState : CoordState :=
  { ledger := { blocks := [], frozen := false }, contribs := [], records := [] }

/-- Resolve a contribution id to its record (the author lookup used by
the self-verification check). -/
def findContrib (contribs : List Contrib) (cid : Nat) : Option Contrib :=
  contribs.find? (fun c => c.id = cid)

/-- Whether a VerificationRecord already exists for the
(contribution, user) pair — either a verify or a flag. -/
def hasActed (records : List VRecord) (cid uid : Nat) : Bool :=
  records.any (fun r => r.contributionId = cid && r.verifierId = uid)

/-- Modelled from the spec: contribution submission — appends a
`Created` block for the new contribution (genesis-linked) and records
the contribution; the score snapshot is the author's eagerly recomputed
score. -/
def submit (st : CoordState) (c : Contrib) (ts : Nat) : Except Err CoordState :=
  match ledgerAppend st.ledger ts c.id c.author c.contentHash .Created 0
      (recompute (c :: st.contribs) st.records c.author c.teamId) with
  | .error e => .error e
  | .ok led' => .ok { st with ledger := led', contribs := c :: st.contribs }

/-- The event payload a verification appends: `Verified` for a plain
member, `InstructorVerified` for the elevated roles
(instructor/manager). -/
def payloadFor (role : Role) (vid : Nat) : EventPayload :=
  match role with
  | .member => .Verified vid
  | .instructor => .InstructorVerified vid
  | .manager => .InstructorVerified vid

/-- Modelled from the spec:
`VerificationCoordinator.verify(contributionId, verifierId, verifierRole)`
(§4.3).  Fails with `SelfVerificationDenied` if the verifier authored
the contribution, with `AlreadyActed` if a record already exists for
this (contribution, verifier) pair, with `TeamFrozen` if the team is
archived; on success creates the VerificationRecord, appends a
`Verified` (or `InstructorVerified` for elevated roles) block and
eagerly recomputes the author's score. -/
def verify (st : CoordState) (cid vid : Nat) (role : Role) (ts : Nat) :
    Except Err CoordState :=
  match findContrib st.contribs cid with
  | none => .error .NotFound
  | some c =>
    if c.author = vid then .error .SelfVerificationDenied
    else if hasActed st.records cid vid then .error .AlreadyActed
    else if st.ledger.frozen then .error .TeamFrozen
    else
      let records' := ⟨cid, vid, .verifiedAs role⟩ :: st.records
      match ledgerAppend st.ledger ts c.id c.author c.contentHash (payloadFor role vid)
          (verCount records' cid) (recompute st.contribs records' c.author c.teamId) with
      | .error e => .error e
      | .ok led' => .ok { st with ledger := led', records := records' }

/-- Modelled from the spec:
`VerificationCoordinator.flag(contributionId, flaggerId)` — same
preconditions as `verify`, appends a `Flagged` block and recomputes the
author's score. -/
def flag (st : CoordState) (cid uid : Nat) (ts : Nat) : Except Err CoordState :=
  match findContrib st.contribs cid with
  | none => .error .NotFound
  | some c =>
    if c.author = uid then .error .SelfVerificationDenied
    else if hasActed st.records cid uid then .error .AlreadyActed
    else if st.ledger.frozen then .error .TeamFrozen
    else
      let records' := ⟨cid, uid, .flagged⟩ :: st.records
      match ledgerAppend st.ledger ts c.id c.author c.contentHash (.Flagged uid)
          (verCount records' cid) (recompute st.contribs records' c.author c.teamId) with
      | .error e => .error e
      | .ok led' => .ok { st with ledger := led', records := records' }

/-- Modelled from the spec: the team-lifecycle freeze applied to the
coordinator's team. -/
def freezeState (st : CoordState) : CoordState :=
  { st with ledger := freezeLedger st.ledger }

/-- One successful coordinator operation (or a freeze). -/
inductive Step : CoordState → CoordState → Prop where
  | submit (st st' : CoordState) (c : Contrib) (ts : Nat) :
      submit st c ts = .ok st' → Step st st'
  | verify (st st' : CoordState) (cid vid : Nat) (role : Role) (ts : Nat) :
      verify st cid vid role ts = .ok st' → Step st st'
  | flag (st st' : CoordState) (cid uid ts : Nat) :
      flag st cid uid ts = .ok st' → Step st st'
  | freeze (st : CoordState) : Step st (freezeState st)

/-- States reachable from the empty state by coordinator operations. -/
inductive Reachable : CoordState → Prop where
  | init : Reachable initState
  | step {st st' : CoordState} : Reachable st → Step st st' → Reachable st'

/-- The records a given (contribution, user) pair owns. -/
def recordsFor (records : List VRecord) (cid uid : Nat) : List VRecord :=
  records.filter (fun r => r.contributionId = cid && r.verifierId = uid)

/-- Whether the pair is recorded as having verified. -/
def hasVerified (records : List VRecord) (cid uid : Nat) : Bool :=
  (recordsFor records cid uid).any (fun r => r.action.isVerify)

/-- Whether the pair is recorded as having flagged. -/
def hasFlagged (records : List VRecord) (cid uid : Nat) : Bool :=
  (recordsFor records cid uid).any (fun r => r.action.isFlag)

/-! ## ChainAuditor -/

/-- Modelled from the spec: the reason a chain audit fails — hash
mismatch, broken `previousHash` linkage, or non-increasing sequence. -/
inductive AuditReason where
  | hashMismatch
  | linkageBreak
  | sequenceError
deriving DecidableEq, Repr

/-- Modelled from the spec:
`ValidationResult{valid, brokenAtSequence, reason}`. -/
structure ValidationResult where
  valid : Bool
  brokenAtSequence : Option Nat
  reason : Option AuditReason
deriving DecidableEq, Repr

/-- Whether a block's sequence is strictly above the previous one
(vacuous for the first block). -/
def seqOk (prevSeq : Option Nat) (s : Nat) : Bool :=
  match prevSeq with
  | none => true
  | some p => p < s

/-- Modelled from the spec: the auditor's walk.  Carries the expected
`previousHash` (sentinel `0` initially) and the last sequence seen; for
each block recomputes the hash and compares to the stored value, then
checks linkage, then strict sequence increase — stopping at the first
mismatch and reporting that block's sequence. -/
def auditGo (prevHash : Nat) (prevSeq : Option Nat) : List Block → ValidationResult
  | [] => { valid := true, brokenAtSequence := none, reason := none }
  | b :: rest =>
    if blockHashOf b ≠ b.blockHash then
      { valid := false, brokenAtSequence := some b.sequence, reason := some .hashMismatch }
    else if b.previousHash ≠ prevHash then
      { valid := false, brokenAtSequence := some b.sequence, reason := some .linkageBreak }
    else if ¬ seqOk prevSeq b.sequence then
      { valid := false, brokenAtSequence := some b.sequence, reason := some .sequenceError }
    else auditGo b.blockHash (some b.sequence) rest

/-- Modelled from the spec: `ChainAuditor.verifyChain(teamId)` — walks
the team's blocks in ascending order from the genesis sentinel. -/
def verifyChain (blocks : List Block) : ValidationResult :=
  auditGo 0 none blocks

/-- A stored block with its `eventPayload` replaced and every other
stored field (its `blockHash` included) left as is. -/
def tamperPayload (b : Block) (p : EventPayload) : Block :=
  { b with eventPayload := p }

/-! ## ContributionHeatmap

Embedding of `frontend/src/components/ContributionHeatmap.tsx`.
Calendar dates are modelled as day numbers (`Nat`); a contribution list
is the list of day numbers of its items' `created_at` dates.  The
JavaScript `count / maxCount >= 0.75` (etc.) comparisons on integer
counts are modelled by the exact rational equivalents
`4 * count ≥ 3 * maxCount` (etc.). -/

/-- One cell of the heatmap grid — the TSX `DayData`; `level` is `-1`
for the empty leading padding cells, `0`–`4` otherwise. -/
structure DayData where
  date : Nat
  count : Nat
  level : Int
deriving DecidableEq, Repr

/-- `Math.max(...Array.from(contributionsByDate.values()), 1)`: the
largest single-day contribution count among days that appear, floored
at `1`. -/
def maxCount (contribs : List Nat) : Nat :=
  (contribs.dedup.map (fun d => contribs.count d)).foldl Nat.max 1

/-- The level computation of the TSX `heatmapData` loop: `0` for a day
with no contributions, else `4`/`3`/`2`/`1` by quarters of the maximum
single-day count. -/
def levelOf (contribs : List Nat) (d : Nat) : Int :=
  let c := contribs.count d
  if c = 0 then 0
  else if 3 * maxCount contribs ≤ 4 * c then 4
  else if maxCount contribs ≤ 2 * c then 3
  else if maxCount contribs ≤ 4 * c then 2
  else 1

/-- The TSX `heatmapData`: one `DayData` per day of the 365-day window
starting at `startDay`, in ascending date order. -/
def heatmapData (contribs : List Nat) (startDay : Nat) : List DayData :=
  (List.range 365).map (fun i =>
    { date := startDay + i
      count := contribs.count (startDay + i)
      level := levelOf contribs (startDay + i) })

/-- `Date.getDay()` for a modelled day number: `off` is the weekday of
day `0` (0 = Sunday … 6 = Saturday). -/
def getDay (off d : Nat) : Nat :=
  (off + d) % 7

/-- The TSX empty padding cell `{ date: new Date(0), count: 0, level: -1 }`. -/
def emptyCell : DayData :=
  { date := 0, count := 0, level := -1 }

/-- The TSX `weeks` forEach: push each day onto the current week,
flushing the week after a Saturday (`getDay() === 6`) or after the last
day; a week left unflushed at the end is dropped (which only happens
when the input is empty). -/
def buildWeeks (off : Nat) : List DayData → List DayData → List (List DayData)
  | [], _week => []
  | d :: rest, week =>
    if getDay off d.date = 6 ∨ rest = [] then
      (week ++ [d]) :: buildWeeks off rest []
    else buildWeeks off rest (week ++ [d])

/-- The TSX `weeks` memo: leading empty cells up to the first day's
weekday, then the 365 day cells chunked at Saturdays. -/
def weeks (off : Nat) (contribs : List Nat) (startDay : Nat) : List (List DayData) :=
  match (heatmapData contribs startDay).head? with
  | none => []
  | some first =>
    buildWeeks off (heatmapData contribs startDay)
      (List.replicate (getDay off first.date) emptyCell)

/-! ## Concrete witness states

A small reachable coordinator run: user 1 submits contribution 1 in
team 1, then user 2 verifies it as a member. -/

/-- The witness contribution: id 1, author 1, team 1. -/
def wContribution : Contrib := ⟨1, 1, 1, 0⟩

/-- State after the submission. -/
def wState1 : CoordState :=
  ((submit initState wContribution 10).toOption).getD initState

/-- State after user 2's member verification. -/
def wState2 : CoordState :=
  ((verify wState1 1 2 .member 11).toOption).getD initState

/-! ## Invariants and helper lemmas -/

/-- Well-formedness of a stored chain: consecutive blocks are linked and
every block's stored hash is the recomputation from its stored fields. -/
def ChainWF (blocks : List Block) : Prop :=
  List.Chain' linkRel blocks ∧ ∀ b ∈ blocks, blockHashOf b = b.blockHash

/-- Uniqueness of verification records: at most one record per
(contribution, verifier) pair. -/
def RecordsUnique (records : List VRecord) : Prop :=
  ∀ cid uid, (recordsFor records cid uid).length ≤ 1

/-- The inductive invariant of the coordinator state machine. -/
def Inv (st : CoordState) : Prop :=
  ChainWF st.ledger.blocks ∧ RecordsUnique st.records

theorem encodePayload_inj {p q : EventPayload}
    (h : encodePayload p = encodePayload q) : p = q := by
  cases p <;> cases q <;>
    simp_all [encodePayload, Nat.pair_eq_pair]

theorem hashFields_payload_inj {s t c a ch vc : Nat} {sn : Int} {ph : Nat}
    {p q : EventPayload}
    (h : hashFields s t c a ch p vc sn ph = hashFields s t c a ch q vc sn ph) :
    p = q := by
  unfold hashFields at h
  simp only [Nat.pair_eq_pair] at h
  exact encodePayload_inj h.2.2.2.2.2.1

theorem tipHash_getLast {led : TeamLedger} {b : Block}
    (h : led.blocks.getLast? = some b) : tipHash led = b.blockHash := by
  unfold tipHash
  rw [h]

theorem nextSeq_getLast {led : TeamLedger} {b : Block}
    (h : led.blocks.getLast? = some b) : nextSeq led = b.sequence + 1 := by
  unfold nextSeq
  rw [h]

theorem mkBlock_previousHash (led : TeamLedger) (ts cref aref ch : Nat)
    (p : EventPayload) (vc : Nat) (sn : Int) :
    (mkBlock led ts cref aref ch p vc sn).previousHash = tipHash led := rfl

theorem mkBlock_sequence (led : TeamLedger) (ts cref aref ch : Nat)
    (p : EventPayload) (vc : Nat) (sn : Int) :
    (mkBlock led ts cref aref ch p vc sn).sequence = nextSeq led := rfl

theorem blockHashOf_mkBlock (led : TeamLedger) (ts cref aref ch : Nat)
    (p : EventPayload) (vc : Nat) (sn : Int) :
    blockHashOf (mkBlock led ts cref aref ch p vc sn) =
      (mkBlock led ts cref aref ch p vc sn).blockHash := by
  simp only [blockHashOf, mkBlock]

theorem chainWF_append (led : TeamLedger) (ts cref aref ch : Nat)
    (p : EventPayload) (vc : Nat) (sn : Int) (h : ChainWF led.blocks) :
    ChainWF (led.blocks ++ [mkBlock led ts cref aref ch p vc sn]) := by
  obtain ⟨hchain, hhash⟩ := h
  constructor
  · rw [List.chain'_append]
    refine ⟨hchain, List.chain'_singleton _, ?_⟩
    intro x hx y hy
    simp only [List.head?_cons, Option.mem_def, Option.some.injEq] at hy
    subst hy
    refine ⟨?_, ?_⟩
    · rw [mkBlock_previousHash]
      exact tipHash_getLast hx
    · rw [mkBlock_sequence]
      exact nextSeq_getLast hx
  · intro b hb
    rcases List.mem_append.mp hb with hb | hb
    · exact hhash b hb
    · simp only [List.mem_singleton] at hb
      subst hb
      exact blockHashOf_mkBlock led ts cref aref ch p vc sn

theorem ledgerAppend_ok {led led' : TeamLedger} {ts cref aref ch : Nat}
    {p : EventPayload} {vc : Nat} {sn : Int}
    (h : ledgerAppend led ts cref aref ch p vc sn = .ok led') :
    led'.blocks = led.blocks ++ [mkBlock led ts cref aref ch p vc sn] ∧
      led'.frozen = led.frozen := by
  unfold ledgerAppend appendCAS at h
  cases hf : led.frozen with
  | true => rw [hf] at h; simp at h
  | false =>
    rw [hf] at h
    rw [if_neg (by simp)] at h
    rw [if_pos rfl] at h
    cases h
    exact ⟨rfl, rfl⟩

theorem recordsFor_cons (r : VRecord) (records : List VRecord) (cid uid : Nat) :
    recordsFor (r :: records) cid uid =
      if r.contributionId = cid ∧ r.verifierId = uid then
        r :: recordsFor records cid uid
      else recordsFor records cid uid := by
  unfold recordsFor
  rw [List.filter_cons]
  by_cases h : r.contributionId = cid ∧ r.verifierId = uid
  · simp [h.1, h.2]
  · rw [if_neg h]
    have : ¬(r.contributionId = cid ∧ r.verifierId = uid) := h
    by_cases h1 : r.contributionId = cid
    · have h2 : r.verifierId ≠ uid := fun h2 => this ⟨h1, h2⟩
      simp [h1, h2]
    · simp [h1]

theorem hasActed_false_recordsFor {records : List VRecord} {cid uid : Nat}
    (h : hasActed records cid uid = false) :
    recordsFor records cid uid = [] := by
  unfold hasActed at h
  unfold recordsFor
  rw [List.filter_eq_nil_iff]
  intro a ha hc
  have hany : (records.any fun r =>
      decide (r.contributionId = cid) && decide (r.verifierId = uid)) = true :=
    List.any_eq_true.mpr ⟨a, ha, hc⟩
  rw [h] at hany
  exact Bool.false_ne_true hany

theorem recordsUnique_cons {records : List VRecord} {cid uid : Nat}
    (act : VAction) (hu : RecordsUnique records)
    (h : hasActed records cid uid = false) :
    RecordsUnique (⟨cid, uid, act⟩ :: records) := by
  intro c u
  rw [recordsFor_cons]
  by_cases hcu : (VRecord.mk cid uid act).contributionId = c ∧
      (VRecord.mk cid uid act).verifierId = u
  · rw [if_pos hcu]
    simp only at hcu
    obtain ⟨hc, hu'⟩ := hcu
    subst hc; subst hu'
    rw [hasActed_false_recordsFor h]
    simp
  · rw [if_neg hcu]
    exact hu c u

theorem inv_submit {st st' : CoordState} {c : Contrib} {ts : Nat}
    (hinv : Inv st) (h : submit st c ts = .ok st') : Inv st' := by
  unfold submit at h
  cases happ : ledgerAppend st.ledger ts c.id c.author c.contentHash .Created 0
      (recompute (c :: st.contribs) st.records c.author c.teamId) with
  | error e => rw [happ] at h; cases h
  | ok led' =>
    rw [happ] at h
    cases h
    obtain ⟨hblocks, _⟩ := ledgerAppend_ok happ
    refine ⟨?_, hinv.2⟩
    show ChainWF led'.blocks
    rw [hblocks]
    exact chainWF_append st.ledger _ _ _ _ _ _ _ hinv.1

theorem inv_verify {st st' : CoordState} {cid vid : Nat} {role : Role} {ts : Nat}
    (hinv : Inv st) (h : verify st cid vid role ts = .ok st') : Inv st' := by
  unfold verify at h
  cases hfind : findContrib st.contribs cid with
  | none => rw [hfind] at h; cases h
  | some c =>
    rw [hfind] at h
    dsimp only at h
    by_cases h1 : c.author = vid
    · rw [if_pos h1] at h; cases h
    · rw [if_neg h1] at h
      cases h2 : hasActed st.records cid vid with
      | true => rw [h2] at h; simp at h
      | false =>
        rw [h2] at h
        rw [if_neg (by simp)] at h
        cases h3 : st.ledger.frozen with
        | true => rw [h3] at h; simp at h
        | false =>
          rw [h3] at h
          rw [if_neg (by simp)] at h
          generalize happ : ledgerAppend st.ledger ts c.id c.author c.contentHash
              (payloadFor role vid)
              (verCount (⟨cid, vid, .verifiedAs role⟩ :: st.records) cid)
              (recompute st.contribs (⟨cid, vid, .verifiedAs role⟩ :: st.records)
                c.author c.teamId) = res at h
          cases res with
          | error e => cases h
          | ok led' =>
            cases h
            obtain ⟨hblocks, _⟩ := ledgerAppend_ok happ
            refine ⟨?_, recordsUnique_cons _ hinv.2 h2⟩
            show ChainWF led'.blocks
            rw [hblocks]
            exact chainWF_append st.ledger _ _ _ _ _ _ _ hinv.1

theorem inv_flag {st st' : CoordState} {cid uid ts : Nat}
    (hinv : Inv st) (h : flag st cid uid ts = .ok st') : Inv st' := by
  unfold flag at h
  cases hfind : findContrib st.contribs cid with
  | none => rw [hfind] at h; cases h
  | some c =>
    rw [hfind] at h
    dsimp only at h
    by_cases h1 : c.author = uid
    · rw [if_pos h1] at h; cases h
    · rw [if_neg h1] at h
      cases h2 : hasActed st.records cid uid with
      | true => rw [h2] at h; simp at h
      | false =>
        rw [h2] at h
        rw [if_neg (by simp)] at h
        cases h3 : st.ledger.frozen with
        | true => rw [h3] at h; simp at h
        | false =>
          rw [h3] at h
          rw [if_neg (by simp)] at h
          generalize happ : ledgerAppend st.ledger ts c.id c.author c.contentHash
              (.Flagged uid) (verCount (⟨cid, uid, .flagged⟩ :: st.records) cid)
              (recompute st.contribs (⟨cid, uid, .flagged⟩ :: st.records)
                c.author c.teamId) = res at h
          cases res with
          | error e => cases h
          | ok led' =>
            cases h
            obtain ⟨hblocks, _⟩ := ledgerAppend_ok happ
            refine ⟨?_, recordsUnique_cons _ hinv.2 h2⟩
            show ChainWF led'.blocks
            rw [hblocks]
            exact chainWF_append st.ledger _ _ _ _ _ _ _ hinv.1

theorem inv_freeze {st : CoordState} (hinv : Inv st) : Inv (freezeState st) :=
  hinv

theorem inv_step {st st' : CoordState} (hinv : Inv st) (h : Step st st') : Inv st' := by
  cases h with
  | submit _ c ts hop => exact inv_submit hinv hop
  | verify _ cid vid role ts hop => exact inv_verify hinv hop
  | flag _ cid uid ts hop => exact inv_flag hinv hop
  | freeze => exact inv_freeze hinv

theorem inv_init : Inv initState := by
  refine ⟨⟨List.chain'_nil, ?_⟩, ?_⟩
  · intro b hb
    cases hb
  · intro cid uid
    simp [recordsFor, initState]

theorem reachable_inv {st : CoordState} (h : Reachable st) : Inv st := by
  induction h with
  | init => exact inv_init
  | step _ hstep ih => exact inv_step ih hstep

theorem blockHashOf_tamperPayload (b : Block) (p : EventPayload) :
    blockHashOf (tamperPayload b p) =
      hashFields b.sequence b.timestamp b.contributionRef b.contributorRef
        b.contentHash p b.verificationCount b.reputationScoreSnapshot
        b.previousHash := rfl

theorem auditGo_pass {ph : Nat} {ps : Option Nat} {b : Block} {rest : List Block}
    (h : (auditGo ph ps (b :: rest)).valid = true) :
    blockHashOf b = b.blockHash ∧ b.previousHash = ph ∧
      seqOk ps b.sequence = true ∧
      (auditGo b.blockHash (some b.sequence) rest).valid = true := by
  rw [auditGo] at h
  by_cases h1 : blockHashOf b ≠ b.blockHash
  · rw [if_pos h1] at h; cases h
  · rw [if_neg h1] at h
    push_neg at h1
    by_cases h2 : b.previousHash ≠ ph
    · rw [if_pos h2] at h; cases h
    · rw [if_neg h2] at h
      push_neg at h2
      by_cases h3 : ¬ seqOk ps b.sequence = true
      · rw [if_pos h3] at h; cases h
      · rw [if_neg h3] at h
        push_neg at h3
        exact ⟨h1, h2, h3, h⟩

theorem auditGo_tamper (p : EventPayload) :
    ∀ (blocks : List Block) (i : Nat) (ph : Nat) (ps : Option Nat)
      (h : i < blocks.length),
      (auditGo ph ps blocks).valid = true →
      p ≠ (blocks.get ⟨i, h⟩).eventPayload →
      auditGo ph ps (blocks.set i (tamperPayload (blocks.get ⟨i, h⟩) p)) =
        { valid := false
          brokenAtSequence := some (blocks.get ⟨i, h⟩).sequence
          reason := some .hashMismatch } := by
  intro blocks
  induction blocks with
  | nil => intro i ph ps h; exact absurd h (by simp)
  | cons b rest ih =>
    intro i ph ps h hvalid hne
    obtain ⟨hhash, hprev, hseq, hrest⟩ := auditGo_pass hvalid
    cases i with
    | zero =>
      have hne' : p ≠ b.eventPayload := hne
      show auditGo ph ps (tamperPayload b p :: rest) =
        { valid := false, brokenAtSequence := some b.sequence
          reason := some .hashMismatch }
      rw [auditGo]
      rw [if_pos ?hcond]
      case hcond =>
        intro heq
        rw [blockHashOf_tamperPayload] at heq
        have hb : (tamperPayload b p).blockHash = b.blockHash := rfl
        rw [hb, ← hhash] at heq
        unfold blockHashOf at heq
        exact hne' (hashFields_payload_inj heq)
      rfl
    | succ j =>
      have hlen : j < rest.length := by
        simpa using h
      have hne' : p ≠ (rest.get ⟨j, hlen⟩).eventPayload := hne
      show auditGo ph ps (b :: rest.set j (tamperPayload (rest.get ⟨j, hlen⟩) p)) =
        { valid := false, brokenAtSequence := some (rest.get ⟨j, hlen⟩).sequence
          reason := some .hashMismatch }
      rw [auditGo]
      rw [if_neg (by rw [hhash]; exact fun hh => hh rfl)]
      rw [if_neg (by rw [hprev]; exact fun hh => hh rfl)]
      rw [if_neg (by rw [hseq]; exact fun hh => hh rfl)]
      exact ih j b.blockHash (some b.sequence) hlen hrest hne'

theorem le_foldl_max (l : List Nat) : ∀ n : Nat, n ≤ l.foldl Nat.max n := by
  induction l with
  | nil => intro n; exact Nat.le_refl n
  | cons a l ih =>
    intro n
    exact Nat.le_trans (Nat.le_max_left n a) (ih (Nat.max n a))

theorem one_le_maxCount (contribs : List Nat) : 1 ≤ maxCount contribs :=
  le_foldl_max _ 1

theorem buildWeeks_flatten (off : Nat) :
    ∀ (l : List DayData) (w : List DayData), l ≠ [] →
      (buildWeeks off l w).flatten = w ++ l := by
  intro l
  induction l with
  | nil => intro w hw; exact absurd rfl hw
  | cons d rest ih =>
    intro w _
    rw [buildWeeks]
    by_cases hc : getDay off d.date = 6 ∨ rest = []
    · rw [if_pos hc]
      rw [List.flatten_cons]
      cases hrest : rest with
      | nil =>
        subst hrest
        simp [buildWeeks]
      | cons r rs =>
        rw [← hrest]
        have hne : rest ≠ [] := by rw [hrest]; exact List.cons_ne_nil r rs
        rw [ih [] hne]
        simp
    · rw [if_neg hc]
      push_neg at hc
      rw [ih (w ++ [d]) hc.2]
      simp

theorem foldl_scoreContribution (records : List VRecord) :
    ∀ (l : List Contrib) (n : Int),
      (l.map (scoreContribution records)).foldl (· + ·) n =
        n + l.length
          + 3 * (l.countP (fun c => decide (2 ≤ (peerVerifiers records c).length)))
          + 5 * (l.countP (fun c => hasInstrVerification records c))
          - 2 * (l.countP (fun c => hasFlagRecord records c)) := by
  intro l
  induction l with
  | nil => intro n; simp
  | cons c l ih =>
    intro n
    rw [List.map_cons, List.foldl_cons, ih]
    rw [List.countP_cons, List.countP_cons, List.countP_cons]
    unfold scoreContribution
    by_cases h2 : 2 ≤ (peerVerifiers records c).length <;>
      cases h5 : hasInstrVerification records c <;>
        cases hf : hasFlagRecord records c <;>
          · simp only [h2, h5, hf, if_true, if_false, decide_eq_true_eq,
              decide_True, decide_False, Bool.false_eq_true, List.length_cons]
            push_cast
            ring

theorem wState1_step : submit initState wContribution 10 = .ok wState1 := rfl

theorem wState2_step : verify wState1 1 2 .member 11 = .ok wState2 := rfl

theorem wState2_reachable : Reachable wState2 :=
  Reachable.step
    (Reachable.step Reachable.init
      (Step.submit initState wState1 wContribution 10 wState1_step))
    (Step.verify wState1 wState2 1 2 .member 11 wState2_step)

/-! ## Claim theorems -/

/-- C1: in every reachable per-team chain, every non-genesis block's
`previousHash` equals the previous block's `blockHash` and its
`sequence` is the previous block's plus one; and `appendCAS` rejects
any append whose expected previous hash does not match the current tip
(so chains never merge or fork). -/
theorem chain_linkage_invariant (st : CoordState) (hst : Reachable st) :
    List.Chain' linkRel st.ledger.blocks ∧
    ∀ (eprev ts cref aref ch : Nat) (p : EventPayload) (vc : Nat) (sn : Int),
      eprev ≠ tipHash st.ledger →
      appendCAS st.ledger eprev ts cref aref ch p vc sn =
        .error (if st.ledger.frozen then Err.ChainFrozen else Err.ChainConflict) := by
  refine ⟨(reachable_inv hst).1.1, ?_⟩
  intro eprev ts cref aref ch p vc sn hne
  unfold appendCAS
  cases hf : st.ledger.frozen with
  | true => simp
  | false => simp [hne]

/-- Witness for C1 at the concrete two-block reachable chain. -/
theorem chain_linkage_invariant_witness :
    List.Chain' linkRel wState2.ledger.blocks ∧
    appendCAS wState2.ledger 999 12 1 1 0 .Created 0 0 =
      .error (if wState2.ledger.frozen then Err.ChainFrozen else Err.ChainConflict) :=
  ⟨(chain_linkage_invariant wState2 wState2_reachable).1,
   (chain_linkage_invariant wState2 wState2_reachable).2 999 12 1 1 0 .Created 0 0
     (by decide)⟩

/-- C2: `recompute` returns 1 per submitted contribution, plus 3 per
contribution with ≥2 distinct non-author teammate verifications, plus 5
per contribution with ≥1 instructor/manager verification, minus 2 per
contribution with ≥1 flag, each contribution counted at most once per
bucket; in particular the spec scenario scores 4, then 9 after an
instructor verification, then 7 after a flag, and 5 teammate
verifications still contribute only once to the +3 bucket. -/
theorem recompute_scoring_formula :
    (∀ (contribs : List Contrib) (records : List VRecord) (userId teamId : Nat),
      recompute contribs records userId teamId =
        ((contributionsOf contribs userId teamId).length : Int)
          + 3 * ((contributionsOf contribs userId teamId).countP
              (fun c => decide (2 ≤ (peerVerifiers records c).length)) : Int)
          + 5 * ((contributionsOf contribs userId teamId).countP
              (fun c => hasInstrVerification records c) : Int)
          - 2 * ((contributionsOf contribs userId teamId).countP
              (fun c => hasFlagRecord records c) : Int)) ∧
    recompute [⟨1, 1, 1, 0⟩]
      [⟨1, 2, .verifiedAs .member⟩, ⟨1, 3, .verifiedAs .member⟩] 1 1 = 4 ∧
    recompute [⟨1, 1, 1, 0⟩]
      [⟨1, 4, .verifiedAs .instructor⟩, ⟨1, 2, .verifiedAs .member⟩,
       ⟨1, 3, .verifiedAs .member⟩] 1 1 = 9 ∧
    recompute [⟨1, 1, 1, 0⟩]
      [⟨1, 5, .flagged⟩, ⟨1, 4, .verifiedAs .instructor⟩,
       ⟨1, 2, .verifiedAs .member⟩, ⟨1, 3, .verifiedAs .member⟩] 1 1 = 7 ∧
    recompute [⟨1, 1, 1, 0⟩]
      [⟨1, 2, .verifiedAs .member⟩, ⟨1, 3, .verifiedAs .member⟩,
       ⟨1, 6, .verifiedAs .member⟩, ⟨1, 7, .verifiedAs .member⟩,
       ⟨1, 8, .verifiedAs .member⟩] 1 1 = 4 := by
  refine ⟨?_, by decide, by decide, by decide, by decide⟩
  intro contribs records userId teamId
  unfold recompute
  rw [foldl_scoreContribution records (contributionsOf contribs userId teamId) 0]
  ring

/-- C3: for any chain the auditor accepts, altering one stored block's
`eventPayload` without recomputing its `blockHash` makes `verifyChain`
report `valid = false` at exactly that block's `sequence`, with a hash
mismatch as the reason. -/
theorem auditor_detects_payload_tamper (blocks : List Block) (i : Nat)
    (p : EventPayload) (h : i < blocks.length)
    (hvalid : (verifyChain blocks).valid = true)
    (hne : p ≠ (blocks.get ⟨i, h⟩).eventPayload) :
    verifyChain (blocks.set i (tamperPayload (blocks.get ⟨i, h⟩) p)) =
      { valid := false
        brokenAtSequence := some (blocks.get ⟨i, h⟩).sequence
        reason := some .hashMismatch } :=
  auditGo_tamper p blocks i 0 none h hvalid hne

/-- Witness for C3: tampering the second block of the concrete
two-block chain is reported at its sequence `1`. -/
theorem auditor_detects_payload_tamper_witness :
    verifyChain (wState2.ledger.blocks.set 1
        (tamperPayload (wState2.ledger.blocks.get ⟨1, by decide⟩)
          EventPayload.Created)) =
      { valid := false
        brokenAtSequence := some (wState2.ledger.blocks.get ⟨1, by decide⟩).sequence
        reason := some .hashMismatch } :=
  auditor_detects_payload_tamper wState2.ledger.blocks 1 .Created
    (by decide) (by decide) (by decide)

/-- C4: recomputing a user's score twice with no intervening ledger or
verification-record changes is idempotent — the second call returns the
same `ReputationScore` (and the same stored state) as the first. -/
theorem recompute_idempotent (st : ScoreBoard) (userId teamId : Nat) :
    recomputeCall ((recomputeCall st userId teamId).1) userId teamId =
      recomputeCall st userId teamId := by
  unfold recomputeCall
  simp [Function.update_idem]

/-- C5: a verifier that authored the contribution is rejected with
`SelfVerificationDenied`; no successor state is produced, so no block
is appended and no VerificationRecord is created. -/
theorem verify_self_denied (st : CoordState) (cid vid : Nat) (role : Role)
    (ts : Nat) (c : Contrib) (hfind : findContrib st.contribs cid = some c)
    (hauthor : c.author = vid) :
    verify st cid vid role ts = .error .SelfVerificationDenied := by
  unfold verify
  rw [hfind]
  dsimp only
  rw [if_pos hauthor]

/-- Witness for C5: the author of the witness contribution cannot
verify it. -/
theorem verify_self_denied_witness :
    verify wState1 1 1 .member 11 = .error .SelfVerificationDenied :=
  verify_self_denied wState1 1 1 .member 11 wContribution rfl rfl

/-- C6: once a VerificationRecord exists for a (contribution, user)
pair — verify or flag — any second `verify` or `flag` by that user on
that contribution is rejected with `AlreadyActed`; no successor state
is produced, so the chain is unchanged. -/
theorem second_action_already_acted (st : CoordState) (cid uid : Nat)
    (role : Role) (ts : Nat) (c : Contrib)
    (hfind : findContrib st.contribs cid = some c) (hauthor : c.author ≠ uid)
    (hacted : hasActed st.records cid uid = true) :
    verify st cid uid role ts = .error .AlreadyActed ∧
      flag st cid uid ts = .error .AlreadyActed := by
  constructor
  · unfold verify
    rw [hfind]
    dsimp only
    rw [if_neg hauthor, hacted, if_pos rfl]
  · unfold flag
    rw [hfind]
    dsimp only
    rw [if_neg hauthor, hacted, if_pos rfl]

/-- Witness for C6: user 2, having verified contribution 1, can
neither verify nor flag it again. -/
theorem second_action_already_acted_witness :
    verify wState2 1 2 .member 12 = .error .AlreadyActed ∧
      flag wState2 1 2 12 = .error .AlreadyActed :=
  second_action_already_acted wState2 1 2 .member 12 wContribution rfl
    (by decide) (by decide)

/-- C7: after `freeze`, every append for that team fails with
`ChainFrozen`, and the freeze (and the failed attempt) leave the chain
itself unchanged. -/
theorem freeze_gate (led : TeamLedger) (eprev ts cref aref ch : Nat)
    (p : EventPayload) (vc : Nat) (sn : Int) :
    appendCAS (freezeLedger led) eprev ts cref aref ch p vc sn =
        .error .ChainFrozen ∧
      (freezeLedger led).blocks = led.blocks := by
  constructor
  · unfold appendCAS freezeLedger
    rw [if_pos rfl]
  · rfl

/-- C8: every block of a reachable chain satisfies the hash
round-trip — recomputing `blockHashOf` from the stored fields yields
the stored `blockHash` — and the hash is a deterministic pure function
of those fields. -/
theorem blockhash_roundtrip (st : CoordState) (hst : Reachable st) :
    (∀ b ∈ st.ledger.blocks, blockHashOf b = b.blockHash) ∧
    (∀ b b' : Block, b.sequence = b'.sequence → b.timestamp = b'.timestamp →
      b.contributionRef = b'.contributionRef →
      b.contributorRef = b'.contributorRef →
      b.contentHash = b'.contentHash → b.eventPayload = b'.eventPayload →
      b.verificationCount = b'.verificationCount →
      b.reputationScoreSnapshot = b'.reputationScoreSnapshot →
      b.previousHash = b'.previousHash →
      blockHashOf b = blockHashOf b') := by
  refine ⟨(reachable_inv hst).1.2, ?_⟩
  intro b b' h1 h2 h3 h4 h5 h6 h7 h8 h9
  unfold blockHashOf
  rw [h1, h2, h3, h4, h5, h6, h7, h8, h9]

/-- Witness for C8: the round-trip at the genesis block of the
concrete reachable chain. -/
theorem blockhash_roundtrip_witness :
    blockHashOf (wState2.ledger.blocks.get ⟨0, by decide⟩) =
      (wState2.ledger.blocks.get ⟨0, by decide⟩).blockHash :=
  (blockhash_roundtrip wState2 wState2_reachable).1 _ (by decide)

/-- C9: in every reachable state, a (contribution, user) pair owns at
most one VerificationRecord, so a user is never recorded as having both
verified and flagged the same contribution — each pair is in exactly
one of the states NoAction, Verified, Flagged. -/
theorem verify_flag_mutual_exclusion (st : CoordState) (hst : Reachable st)
    (cid uid : Nat) :
    (recordsFor st.records cid uid).length ≤ 1 ∧
      ¬(hasVerified st.records cid uid = true ∧
        hasFlagged st.records cid uid = true) := by
  have hu := (reachable_inv hst).2 cid uid
  refine ⟨hu, ?_⟩
  rintro ⟨hv, hf⟩
  unfold hasVerified at hv
  unfold hasFlagged at hf
  obtain ⟨r1, hr1, hv1⟩ := List.any_eq_true.mp hv
  obtain ⟨r2, hr2, hf2⟩ := List.any_eq_true.mp hf
  have hr12 : r1 = r2 := by
    cases hl : recordsFor st.records cid uid with
    | nil => rw [hl] at hr1; cases hr1
    | cons a l =>
      cases l with
      | nil =>
        rw [hl] at hr1 hr2
        simp only [List.mem_singleton] at hr1 hr2
        rw [hr1, hr2]
      | cons b l2 =>
        rw [hl] at hu
        simp at hu
  rw [hr12] at hv1
  cases hact : r2.action with
  | verifiedAs role => rw [hact] at hf2; simp [VAction.isFlag] at hf2
  | flagged => rw [hact] at hv1; simp [VAction.isVerify] at hv1

/-- Witness for C9 at the concrete reachable state and the pair that
has acted. -/
theorem verify_flag_mutual_exclusion_witness :
    (recordsFor wState2.records 1 2).length ≤ 1 ∧
      ¬(hasVerified wState2.records 1 2 = true ∧
        hasFlagged wState2.records 1 2 = true) :=
  verify_flag_mutual_exclusion wState2 wState2_reachable 1 2

theorem levelOf_spec (contribs : List Nat) (d : Nat) :
    (levelOf contribs d = 0 ∨ levelOf contribs d = 1 ∨ levelOf contribs d = 2 ∨
      levelOf contribs d = 3 ∨ levelOf contribs d = 4) ∧
    (levelOf contribs d = 0 ↔ contribs.count d = 0) ∧
    (0 < contribs.count d → 1 ≤ levelOf contribs d) ∧
    (levelOf contribs d = 4 ↔ 3 * maxCount contribs ≤ 4 * contribs.count d) := by
  have hm := one_le_maxCount contribs
  unfold levelOf
  by_cases h0 : contribs.count d = 0
  · rw [if_pos h0, h0]
    exact ⟨Or.inl rfl, iff_of_true rfl rfl, fun hc => absurd hc (lt_irrefl 0),
      iff_of_false (by decide) (by omega)⟩
  · rw [if_neg h0]
    by_cases h4 : 3 * maxCount contribs ≤ 4 * contribs.count d
    · rw [if_pos h4]
      exact ⟨Or.inr (Or.inr (Or.inr (Or.inr rfl))), iff_of_false (by decide) h0,
        fun _ => by norm_num, iff_of_true rfl h4⟩
    · rw [if_neg h4]
      by_cases h3 : maxCount contribs ≤ 2 * contribs.count d
      · rw [if_pos h3]
        exact ⟨Or.inr (Or.inr (Or.inr (Or.inl rfl))), iff_of_false (by decide) h0,
          fun _ => by norm_num, iff_of_false (by decide) h4⟩
      · rw [if_neg h3]
        by_cases h2 : maxCount contribs ≤ 4 * contribs.count d
        · rw [if_pos h2]
          exact ⟨Or.inr (Or.inr (Or.inl rfl)), iff_of_false (by decide) h0,
            fun _ => by norm_num, iff_of_false (by decide) h4⟩
        · rw [if_neg h2]
          exact ⟨Or.inr (Or.inl rfl), iff_of_false (by decide) h0,
            fun _ => le_refl 1, iff_of_false (by decide) h4⟩

/-- C10: every in-window day cell of the heatmap has a level in
`{0,1,2,3,4}` — `0` exactly when the day's count is `0`, at least `1`
when it is positive, and `4` exactly when the count reaches 75% of the
maximum single-day count (`maxCount`, floored at 1 as in the source);
and the week grid, flattened, is exactly the leading `-1` padding cells
(one per weekday before the first real day) followed by the in-window
day cells, so level `-1` occurs only as that leading padding. -/
theorem heatmap_levels (contribs : List Nat) (startDay off : Nat) :
    (∀ d ∈ heatmapData contribs startDay,
        (d.level = 0 ∨ d.level = 1 ∨ d.level = 2 ∨ d.level = 3 ∨ d.level = 4) ∧
        (d.level = 0 ↔ d.count = 0) ∧
        (0 < d.count → 1 ≤ d.level) ∧
        (d.level = 4 ↔ 3 * maxCount contribs ≤ 4 * d.count)) ∧
    (weeks off contribs startDay).flatten =
      List.replicate (getDay off startDay) emptyCell ++
        heatmapData contribs startDay := by
  constructor
  · intro d hd
    unfold heatmapData at hd
    obtain ⟨i, _, rfl⟩ := List.mem_map.mp hd
    exact levelOf_spec contribs (startDay + i)
  · have hne : heatmapData contribs startDay ≠ [] := by
      unfold heatmapData
      simp [List.range_eq_nil]
    have h1 : (List.range 365).head? = some 0 := by decide
    have hhead : (heatmapData contribs startDay).head? =
        some { date := startDay + 0
               count := contribs.count (startDay + 0)
               level := levelOf contribs (startDay + 0) } := by
      unfold heatmapData
      rw [List.head?_map, h1]
      rfl
    unfold weeks
    rw [hhead]
    dsimp only
    rw [buildWeeks_flatten off _ _ hne]
    norm_num

end ContriBook
